import Mathlib

/-
Shallow embedding of the Dannymo11/multi-blue repository
(src/blue.py and src/stem_splitter.py) and verification of its
specification claims.

Samples are modelled as rationals: every operation performed by the code
on sample values (division by a power of two, addition, absolute value,
comparison) is exact on the float values it actually handles at the
granularity the claims are stated, so rationals are a faithful carrier.
Wall-clock time enters the callback only through
expected_position = int(elapsed_time * sample_rate), a non-negative
integer, which the embedding therefore takes as an input of each call.
-/

namespace MultiBlue

/-- Context captured by the closure returned by
AudioManager._callback_factory (src/blue.py lines 95-129): the
per-channel sample buffer channel_data, and the buffer_size field of
the enclosing manager (set to 1024 in AudioManager.__init__, line 74),
which the drift test reads as self.buffer_size. -/
structure CallbackCtx where
  channel_data : List ℚ
  buffer_size : ℕ
deriving DecidableEq

/-- Result of one callback invocation: the returned block of samples and
the completion flag (paComplete = true, paContinue = false). -/
structure PullOutput where
  block : List ℚ
  done : Bool
deriving DecidableEq

/-- Wall-clock expected position (src/blue.py line 109):
int(elapsed_time * self.sample_rate); for non-negative elapsed time
Python int truncation is the floor. The callback embedding below takes
this value as an input. -/
def expected_position_of (elapsed : ℚ) (sample_rate : ℕ) : ℤ :=
  Rat.floor (elapsed * sample_rate)

/-- One invocation of the nested function callback (src/blue.py lines
99-128), as a pure function of the closure state position and of the
wall-clock-derived expected_position. Returns the pyaudio result and
the new value of position. Mirrors the source line by line: drift test
against buffer_size * 2 (line 113), snap (line 115), terminal silent
block (lines 117-118), slice (line 121), advance (line 122), zero
padding of a short tail (lines 125-126). -/
def callback (ctx : CallbackCtx) (position expected_position frame_count : ℕ) :
    PullOutput × ℕ :=
  let drift : ℤ := (expected_position : ℤ) - (position : ℤ)
  let pos : ℕ := if ctx.buffer_size * 2 < drift.natAbs then expected_position else position
  if ctx.channel_data.length ≤ pos then
    (⟨List.replicate frame_count 0, true⟩, pos)
  else
    let out := (ctx.channel_data.drop pos).take frame_count
    (⟨out ++ List.replicate (frame_count - out.length) 0, false⟩, pos + frame_count)

/-- A sequence of callback invocations on one cursor, driven by the list
of wall-clock expected positions, one per call. Returns the outputs in
order and the final position. -/
def runPulls (ctx : CallbackCtx) (position frame_count : ℕ) :
    List ℕ → List PullOutput × ℕ
  | [] => ([], position)
  | e :: es =>
    let step := callback ctx position e frame_count
    let rest := runPulls ctx step.2 frame_count es
    (step.1 :: rest.1, rest.2)

/-- The drift correction of line 113-115 never fires along a run: at each
call the absolute drift is at most buffer_size * 2. -/
def noFireB (ctx : CallbackCtx) (frame_count : ℕ) : ℕ → List ℕ → Bool
  | _, [] => true
  | position, e :: es =>
    decide (((e : ℤ) - (position : ℤ)).natAbs ≤ ctx.buffer_size * 2) &&
      noFireB ctx frame_count (callback ctx position e frame_count).2 es

/-- The expected positions are non-decreasing starting from a given value:
the wall clock (src/blue.py line 108) never runs backwards. -/
def chainLe : ℕ → List ℕ → Bool
  | _, [] => true
  | prev, e :: es => decide (prev ≤ e) && chainLe e es

/-- The output the callback produces from (post-snap) position q: the
frame_count-sample window of the buffer starting at q, zero padded, and
the completion flag. -/
def blockSpec (ctx : CallbackCtx) (frame_count q : ℕ) : PullOutput :=
  ⟨(ctx.channel_data.drop q ++ List.replicate frame_count 0).take frame_count,
    decide (ctx.channel_data.length ≤ q)⟩

end MultiBlue

namespace MultiBlue

theorem take_append_pad (l : List ℚ) (n : ℕ) :
    l.take n ++ List.replicate (n - min n l.length) (0 : ℚ) =
      (l ++ List.replicate n (0 : ℚ)).take n := by
  rw [List.take_append_eq_append_take, List.take_replicate]
  congr 2
  omega

theorem callback_noSnap (ctx : CallbackCtx) (p e fc : ℕ)
    (h : ((e : ℤ) - (p : ℤ)).natAbs ≤ ctx.buffer_size * 2) :
    callback ctx p e fc =
      (blockSpec ctx fc p, if ctx.channel_data.length ≤ p then p else p + fc) := by
  have h1 : ¬ (ctx.buffer_size * 2 < ((e : ℤ) - (p : ℤ)).natAbs) := by omega
  by_cases h2 : ctx.channel_data.length ≤ p
  · simp [callback, blockSpec, h1, h2, List.drop_eq_nil_of_le h2, List.take_replicate]
  · have hout : List.take fc (List.drop p ctx.channel_data) ++
        List.replicate (fc - fc ⊓ (ctx.channel_data.length - p)) (0 : ℚ) =
        List.take fc (List.drop p ctx.channel_data ++ List.replicate fc 0) := by
      rw [List.take_append_eq_append_take, List.take_replicate]
      congr 2
      simp only [List.length_drop]
      omega
    simp [callback, blockSpec, h1, h2, hout]

theorem callback_snd (ctx : CallbackCtx) (p e fc : ℕ) :
    (callback ctx p e fc).2 =
      if ctx.buffer_size * 2 < (((e : ℤ) - (p : ℤ))).natAbs then
        (if ctx.channel_data.length ≤ e then e else e + fc)
      else
        (if ctx.channel_data.length ≤ p then p else p + fc) := by
  by_cases h1 : ctx.buffer_size * 2 < (((e : ℤ) - (p : ℤ))).natAbs
  · by_cases h2 : ctx.channel_data.length ≤ e <;> simp [callback, h1, h2]
  · by_cases h2 : ctx.channel_data.length ≤ p <;> simp [callback, h1, h2]

theorem callback_fst_done (ctx : CallbackCtx) (p e fc : ℕ) :
    (callback ctx p e fc).1.done =
      decide (ctx.channel_data.length ≤
        if ctx.buffer_size * 2 < (((e : ℤ) - (p : ℤ))).natAbs then e else p) := by
  by_cases h1 : ctx.buffer_size * 2 < (((e : ℤ) - (p : ℤ))).natAbs
  · by_cases h2 : ctx.channel_data.length ≤ e <;> simp [callback, h1, h2]
  · by_cases h2 : ctx.channel_data.length ≤ p <;> simp [callback, h1, h2]

theorem blockSpec_stuck (ctx : CallbackCtx) (fc q : ℕ)
    (h : ctx.channel_data.length ≤ q) :
    blockSpec ctx fc q = ⟨List.replicate fc 0, true⟩ := by
  simp [blockSpec, List.drop_eq_nil_of_le h, List.take_replicate, h]

theorem runPulls_noFire (ctx : CallbackCtx) (fc : ℕ) :
    ∀ (es : List ℕ) (p : ℕ), noFireB ctx fc p es = true →
      (runPulls ctx p fc es).1 =
        (List.range es.length).map (fun k => blockSpec ctx fc (p + k * fc)) := by
  intro es
  induction es with
  | nil => intro p _; simp [runPulls]
  | cons e es ih =>
    intro p h
    rw [noFireB, Bool.and_eq_true, decide_eq_true_eq] at h
    obtain ⟨h1, h2⟩ := h
    have hstep := callback_noSnap ctx p e fc h1
    have htail := ih _ h2
    rw [runPulls]
    simp only [hstep] at htail ⊢
    rw [htail]
    rw [List.length_cons, List.range_succ_eq_map, List.map_cons, List.map_map]
    congr 1
    · simp
    · apply List.map_congr_left
      intro k _
      simp only [Function.comp]
      by_cases hp : ctx.channel_data.length ≤ p
      · rw [if_pos hp,
          blockSpec_stuck ctx fc _ (le_trans hp (Nat.le_add_right ..)),
          blockSpec_stuck ctx fc _ (le_trans hp (Nat.le_add_right ..))]
      · rw [if_neg hp]
        congr 1
        rw [Nat.succ_mul]
        omega

theorem take_pad_merge (l : List ℚ) (a b : ℕ) :
    (l ++ List.replicate a (0 : ℚ)).take a ++
      (l.drop a ++ List.replicate b (0 : ℚ)).take b =
      (l ++ List.replicate (a + b) (0 : ℚ)).take (a + b) := by
  rcases le_or_lt l.length a with hla | hla
  · rw [List.take_append_eq_append_take, List.take_replicate,
      List.take_of_length_le hla, List.drop_eq_nil_of_le hla,
      List.nil_append, List.take_replicate,
      List.take_append_eq_append_take, List.take_replicate,
      List.take_of_length_le (le_trans hla (Nat.le_add_right a b))]
    rw [List.append_assoc, ← List.replicate_add]
    congr 2
    omega
  · rw [List.take_append_eq_append_take, List.take_replicate,
      List.take_append_eq_append_take, List.take_replicate,
      List.take_append_eq_append_take, List.take_replicate]
    have h1 : min (a - l.length) a = 0 := by omega
    rw [h1]
    simp only [List.replicate_zero, List.append_nil]
    rw [List.take_add, List.append_assoc]
    congr 2
    congr 1
    simp only [List.length_drop]
    omega

theorem flatten_blocks (data : List ℚ) (fc : ℕ) :
    ∀ (n p : ℕ),
      ((List.range n).map
        (fun k => ((data.drop (p + k * fc) ++ List.replicate fc (0 : ℚ)).take fc))).flatten =
        (data.drop p ++ List.replicate (n * fc) (0 : ℚ)).take (n * fc) := by
  intro n
  induction n with
  | zero => intro p; simp
  | succ n ih =>
    intro p
    have hm : (n + 1) * fc = fc + n * fc := by rw [Nat.succ_mul]; omega
    rw [List.range_succ_eq_map, List.map_cons, List.flatten_cons, List.map_map]
    have hshift :
        (List.range n).map
            ((fun k => ((data.drop (p + k * fc) ++ List.replicate fc (0 : ℚ)).take fc)) ∘
              Nat.succ) =
          (List.range n).map
            (fun k => ((data.drop ((p + fc) + k * fc) ++ List.replicate fc (0 : ℚ)).take fc)) := by
      apply List.map_congr_left
      intro k _
      simp only [Function.comp]
      have harr : p + Nat.succ k * fc = p + fc + k * fc := by rw [Nat.succ_mul]; omega
      rw [harr]
    rw [hshift, ih (p + fc)]
    have hdd : data.drop (p + fc) = (data.drop p).drop fc := by
      rw [List.drop_drop, Nat.add_comm]
    rw [hdd]
    simp only [Nat.zero_mul, Nat.add_zero]
    rw [take_pad_merge, hm]

/-- State invariant after a call has returned done (paComplete): the
position is at or beyond the end of the buffer and leads the last seen
expected position by at most buffer_size * 2 samples. -/
def InvDone (ctx : CallbackCtx) (q e : ℕ) : Prop :=
  ctx.channel_data.length ≤ q ∧ (q : ℤ) - (e : ℤ) ≤ ctx.buffer_size * 2

theorem callback_done_inv (ctx : CallbackCtx) (p e fc : ℕ)
    (h : (callback ctx p e fc).1.done = true) :
    InvDone ctx (callback ctx p e fc).2 e := by
  rw [callback_fst_done, decide_eq_true_eq] at h
  rw [callback_snd]
  by_cases h1 : ctx.buffer_size * 2 < (((e : ℤ) - (p : ℤ))).natAbs
  · rw [if_pos h1] at h ⊢
    rw [if_pos h]
    exact ⟨h, by omega⟩
  · rw [if_neg h1] at h ⊢
    rw [if_pos h]
    exact ⟨h, by omega⟩

theorem inv_step (ctx : CallbackCtx) (q e e' fc : ℕ)
    (h : InvDone ctx q e) (he : e ≤ e') :
    (callback ctx q e' fc).1 = ⟨List.replicate fc 0, true⟩ ∧
      InvDone ctx (callback ctx q e' fc).2 e' := by
  obtain ⟨hterm, hlead⟩ := h
  by_cases h1 : ctx.buffer_size * 2 < (((e' : ℤ) - (q : ℤ))).natAbs
  · have he' : ctx.channel_data.length ≤ e' := by omega
    constructor
    · simp [callback, h1, he']
    · rw [callback_snd, if_pos h1, if_pos he']
      exact ⟨he', by omega⟩
  · constructor
    · simp [callback, h1, hterm]
    · rw [callback_snd, if_neg h1, if_pos hterm]
      exact ⟨hterm, by omega⟩

theorem runPulls_inv (ctx : CallbackCtx) (fc : ℕ) :
    ∀ (es : List ℕ) (q e : ℕ), InvDone ctx q e → chainLe e es = true →
      (runPulls ctx q fc es).1 =
        List.replicate es.length ⟨List.replicate fc 0, true⟩ := by
  intro es
  induction es with
  | nil => intro q e _ _; simp [runPulls]
  | cons e' es ih =>
    intro q e hinv hchain
    rw [chainLe, Bool.and_eq_true, decide_eq_true_eq] at hchain
    obtain ⟨he, hch⟩ := hchain
    obtain ⟨hout, hinv'⟩ := inv_step ctx q e e' fc hinv he
    rw [runPulls]
    simp only [hout]
    rw [List.length_cons, List.replicate_succ, ih _ e' hinv' hch]

/-- Normalization of one integer PCM sample (src/blue.py lines 68-69 and
src/stem_splitter.py line 74): divide by 1 <<< (8 * sample_width - 1),
where sample_width is the sample width in bytes, so the divisor is
2 ^ (bit_depth - 1) for bit_depth = 8 * sample_width. -/
def normalize_sample (s : ℤ) (sample_width : ℕ) : ℚ :=
  (s : ℚ) / ((2 : ℚ) ^ (8 * sample_width - 1))

/-- Largest absolute value occurring in a list of samples, as computed by
np.max(np.abs(combined)) (src/stem_splitter.py line 116); the fold
starts at 0, which agrees with NumPy on every non-empty list since
absolute values are non-negative. -/
def maxAbs (l : List ℚ) : ℚ := l.foldl (fun m x => max m |x|) 0

/-- Peak normalization of the combined stem signal
(src/stem_splitter.py lines 115-118): rescale by the maximum absolute
value when it exceeds 1.0, otherwise return the signal unchanged. -/
def normalize_combined (combined : List ℚ) : List ℚ :=
  if 1 < maxAbs combined then combined.map (fun x => x / maxAbs combined) else combined

/-- StemSplitter.combine_stems (src/stem_splitter.py lines 88-120) on the
sample lists of the selected stems: start from zeros of the first
length of the first selected stem, add every selected stem elementwise
(combined += stems[stem_name], line 113; NumPy requires equal shapes,
and zipWith agrees with elementwise addition on equal-length lists),
then peak-normalize. The source raises on an empty stems dictionary;
the claim only concerns non-empty selections. -/
def combine_stems (stems : List (List ℚ)) : List ℚ :=
  match stems with
  | [] => []
  | first :: rest =>
    normalize_combined
      ((first :: rest).foldl (fun acc s => acc.zipWith (· + ·) s)
        (List.replicate first.length 0))

theorem foldl_maxAbs_le (l : List ℚ) :
    ∀ init : ℚ, init ≤ l.foldl (fun m x => max m |x|) init ∧
      ∀ x ∈ l, |x| ≤ l.foldl (fun m x => max m |x|) init := by
  induction l with
  | nil => intro init; exact ⟨le_refl _, by simp⟩
  | cons a l ih =>
    intro init
    rw [List.foldl_cons]
    refine ⟨le_trans (le_max_left ..) (ih (max init |a|)).1, ?_⟩
    intro x hx
    rcases List.mem_cons.mp hx with rfl | hx
    · exact le_trans (le_max_right ..) (ih (max init |x|)).1
    · exact (ih (max init |a|)).2 x hx

theorem mem_le_maxAbs (l : List ℚ) (x : ℚ) (hx : x ∈ l) : |x| ≤ maxAbs l :=
  (foldl_maxAbs_le l 0).2 x hx

theorem normalize_combined_mem (c : List ℚ) (y : ℚ) (hy : y ∈ normalize_combined c) :
    |y| ≤ 1 := by
  rw [normalize_combined] at hy
  by_cases hm : 1 < maxAbs c
  · rw [if_pos hm] at hy
    obtain ⟨x, hx, rfl⟩ := List.mem_map.mp hy
    have hb := mem_le_maxAbs c x hx
    have hmpos : (0 : ℚ) < maxAbs c := lt_trans one_pos hm
    rw [abs_div, abs_of_pos hmpos]
    rw [div_le_one hmpos]
    exact hb
  · rw [if_neg hm] at hy
    exact le_trans (mem_le_maxAbs c y hy) (not_lt.mp hm)

/-- Channel preparation performed by AudioManager.__init__
(src/blue.py lines 44-61), modelled at the sample level and
parameterized by the value the sync_offset_ms field has when the offset
logic runs: a positive offset prepends offset_ms * sample_rate / 1000
zero samples to the left channel, a negative one prepends them to the
right channel (lines 49-54), and afterwards the shorter channel is
right-padded with zeros up to the longer one (lines 56-61). -/
def init_channels (left right : List ℚ) (sync_offset_ms : ℤ) (sample_rate : ℕ) :
    List ℚ × List ℚ :=
  let left2 :=
    if 0 < sync_offset_ms then
      List.replicate (sync_offset_ms * sample_rate / 1000).toNat 0 ++ left
    else left
  let right2 :=
    if sync_offset_ms < 0 then
      List.replicate ((-sync_offset_ms) * sample_rate / 1000).toNat 0 ++ right
    else right
  let maxLen := max left2.length right2.length
  (left2 ++ List.replicate (maxLen - left2.length) 0,
    right2 ++ List.replicate (maxLen - right2.length) 0)

/-- Channel preparation as actually reached from main
(src/blue.py lines 160-167): __init__ sets self.sync_offset_ms = 0
unconditionally (line 42) before the offset logic runs, and main assigns
the CLI offset only after construction, then reconstructs AudioManager
without passing it; so every construction runs the offset logic with
offset 0, whatever sync_offset_ms the user supplied. -/
def main_load_channels (left right : List ℚ) (sync_offset_ms : ℤ) (sample_rate : ℕ) :
    List ℚ × List ℚ :=
  init_channels left right 0 sample_rate

/-- Calls main issues to the two Bluetooth sinks and the two pyaudio
streams. -/
inductive SinkCall where
  | connect1
  | connect2
  | disconnect1
  | disconnect2
  | start_stream1
  | start_stream2
deriving DecidableEq

/-- Control flow of main (src/blue.py lines 189-265) from the connection
step on, as the ordered sequence of sink and stream calls it issues,
paired with whether playback is reached (stream1.start_stream(),
line 246). Inputs: c1 and c2 are the results of device1.connect()
(line 195) and device2.connect() (line 202); l1 and l2 record whether
get_audio_device_by_name finds each output device (lines 216-219).
On a device-lookup failure main returns without disconnecting
(lines 219-226). -/
def main_session (c1 c2 l1 l2 : Bool) : List SinkCall × Bool :=
  if ¬ c1 then ([.connect1], false)
  else if ¬ c2 then ([.connect1, .connect2, .disconnect1], false)
  else if ¬ (l1 && l2) then ([.connect1, .connect2], false)
  else ([.connect1, .connect2, .start_stream1, .start_stream2,
      .disconnect1, .disconnect2], true)

/-- Synthetic end-to-end buffer of the scenario in spec section 8: one
channel of a 2-channel, 8000 Hz, 1.0-second ramp waveform, 8000 samples. -/
def rampData : List ℚ := (List.range 8000).map (fun i : ℕ => (i : ℚ) / 8000)

/-- Callback context for the end-to-end scenario: ramp buffer and the
source buffer_size of 1024. -/
def rampCtx : CallbackCtx := ⟨rampData, 1024⟩

/-- Expected positions for nine pulls with the simulated wall clock
advancing exactly in step with samples emitted: before the k-th pull,
k * 1024 samples have been emitted. -/
def c6Expecteds : List ℕ :=
  [0, 1024, 2048, 3072, 4096, 5120, 6144, 7168, 8192]

theorem rampCtx_len : rampCtx.channel_data.length = 8000 := by
  simp only [rampCtx, rampData, List.length_map, List.length_range]

theorem rampCtx_bs : rampCtx.buffer_size = 1024 := rfl

theorem ramp_noFire : noFireB rampCtx 1024 0 c6Expecteds = true := by
  have hl := rampCtx_len
  have hb := rampCtx_bs
  have s0 : (callback rampCtx 0 0 1024).2 = 1024 := by rw [callback_snd, hl, hb]; decide
  have s1 : (callback rampCtx 1024 1024 1024).2 = 2048 := by rw [callback_snd, hl, hb]; decide
  have s2 : (callback rampCtx 2048 2048 1024).2 = 3072 := by rw [callback_snd, hl, hb]; decide
  have s3 : (callback rampCtx 3072 3072 1024).2 = 4096 := by rw [callback_snd, hl, hb]; decide
  have s4 : (callback rampCtx 4096 4096 1024).2 = 5120 := by rw [callback_snd, hl, hb]; decide
  have s5 : (callback rampCtx 5120 5120 1024).2 = 6144 := by rw [callback_snd, hl, hb]; decide
  have s6 : (callback rampCtx 6144 6144 1024).2 = 7168 := by rw [callback_snd, hl, hb]; decide
  have s7 : (callback rampCtx 7168 7168 1024).2 = 8192 := by rw [callback_snd, hl, hb]; decide
  show noFireB rampCtx 1024 0 [0, 1024, 2048, 3072, 4096, 5120, 6144, 7168, 8192] = true
  rw [noFireB, s0, noFireB, s1, noFireB, s2, noFireB, s3, noFireB, s4, noFireB, s5,
    noFireB, s6, noFireB, s7, noFireB, noFireB, hb]
  decide

theorem ramp_run_outs : (runPulls rampCtx 0 1024 c6Expecteds).1 =
    (List.range 9).map (fun k => blockSpec rampCtx 1024 (k * 1024)) := by
  have h := runPulls_noFire rampCtx 1024 c6Expecteds 0 ramp_noFire
  have h9 : c6Expecteds.length = 9 := by rw [c6Expecteds]; rfl
  rw [h9] at h
  rw [h]
  apply List.map_congr_left
  intro k _
  rw [Nat.zero_add]

/-- Buffer of ten samples with the source buffer size 1024, used as a
concrete cursor context. -/
def ctx10 : CallbackCtx := ⟨List.replicate 10 0, 1024⟩

/-- Buffer of three samples with buffer size 4, used as a concrete
cursor context. -/
def ctx3buf : CallbackCtx := ⟨[1, 2, 3], 4⟩

/-- Buffer of five samples with buffer size 1, used as a concrete
cursor context. -/
def ctx5 : CallbackCtx := ⟨List.replicate 5 0, 1⟩

/-- C1 counterexample: at buffer length 10, position 0,
expected_position 5000 and frame_count 1024 (equal to the configured
buffer size), the drift 5000 exceeds 2 * frame_count, yet after the call
position is 5000 (the snap target, at which the terminal branch returns
done without advancing), not expected_position + frame_count = 6024 as
the claim states. -/
theorem drift_snap_claim_counterexample :
    1024 * 2 < ((5000 : ℤ) - ((0 : ℕ) : ℤ)).natAbs ∧
    (callback ctx10 0 5000 1024).2 = 5000 ∧
    (callback ctx10 0 5000 1024).2 ≠ 5000 + 1024 := by
  refine ⟨by decide, by decide, by decide⟩

/-- C1 (amended): for every pull invocation whose frame_count equals the
configured buffer_size (as in every host invocation, since the stream is
opened with frames_per_buffer = buffer_size) at which
abs(expected_position - position) > 2 * frame_count and
expected_position still lies inside the buffer, the call snaps position
to expected_position and then advances it, so that after the call
position equals expected_position + frame_count. (When
expected_position is at or past the end of the buffer, the call snaps
and returns done without advancing.) -/
theorem drift_snap_advances_position (ctx : CallbackCtx) (p e fc : ℕ)
    (hfc : fc = ctx.buffer_size)
    (hdrift : fc * 2 < (((e : ℤ) - (p : ℤ))).natAbs)
    (he : e < ctx.channel_data.length) :
    (callback ctx p e fc).2 = e + fc := by
  rw [callback_snd, if_pos (by rw [hfc] at hdrift; exact hdrift), if_neg (not_le.mpr he)]

/-- Witness for drift_snap_advances_position: buffer length 5,
buffer_size = frame_count = 1, position 0, expected_position 3. -/
theorem drift_snap_advances_position_witness :
    (1 = ctx5.buffer_size ∧ 1 * 2 < ((((3 : ℕ)) : ℤ) - (((0 : ℕ)) : ℤ)).natAbs ∧
      3 < ctx5.channel_data.length) ∧
    (callback ctx5 0 3 1).2 = 3 + 1 :=
  ⟨⟨by decide, by decide, by decide⟩,
    drift_snap_advances_position ctx5 0 3 1 (by decide) (by decide) (by decide)⟩

/-- C2: for every buffer and every frame_count > 0, a sequence of pull
calls on one cursor in which the drift correction never fires, long
enough to cover the buffer, returns exactly the successive frame_count
sample windows of the buffer in order (each zero padded at the tail),
and the concatenation of the returned blocks, truncated to the buffer
length, is the buffer itself: contiguous, non-overlapping slices
covering the buffer exactly once, in order. -/
theorem pulls_cover_buffer (ctx : CallbackCtx) (fc : ℕ) (es : List ℕ)
    (hfc : 0 < fc)
    (hnf : noFireB ctx fc 0 es = true)
    (hcover : ctx.channel_data.length ≤ es.length * fc) :
    (runPulls ctx 0 fc es).1 =
      (List.range es.length).map (fun k => blockSpec ctx fc (k * fc)) ∧
    (((runPulls ctx 0 fc es).1.map PullOutput.block).flatten).take
        ctx.channel_data.length = ctx.channel_data := by
  have hrun := runPulls_noFire ctx fc es 0 hnf
  have hrun0 : (runPulls ctx 0 fc es).1 =
      (List.range es.length).map (fun k => blockSpec ctx fc (k * fc)) := by
    rw [hrun]
    apply List.map_congr_left
    intro k _
    rw [Nat.zero_add]
  refine ⟨hrun0, ?_⟩
  rw [hrun]
  rw [List.map_map]
  have hb : (PullOutput.block ∘ fun k => blockSpec ctx fc (0 + k * fc)) =
      fun k => ((ctx.channel_data.drop (0 + k * fc) ++ List.replicate fc 0).take fc) := by
    funext k
    simp [blockSpec, Function.comp]
  rw [hb, flatten_blocks ctx.channel_data fc es.length 0, List.drop_zero, List.take_take]
  rw [min_eq_left hcover, List.take_left]

/-- Witness for pulls_cover_buffer: buffer [1, 2, 3], frame_count 2, two
pulls with zero drift. -/
theorem pulls_cover_buffer_witness :
    ((0 : ℕ) < 2 ∧ noFireB ctx3buf 2 0 [0, 2] = true ∧
      ctx3buf.channel_data.length ≤ ([0, 2] : List ℕ).length * 2) ∧
    ((runPulls ctx3buf 0 2 [0, 2]).1 =
      (List.range ([0, 2] : List ℕ).length).map (fun k => blockSpec ctx3buf 2 (k * 2)) ∧
    (((runPulls ctx3buf 0 2 [0, 2]).1.map PullOutput.block).flatten).take
        ctx3buf.channel_data.length = ctx3buf.channel_data) :=
  ⟨⟨by decide, by decide, by decide⟩,
    pulls_cover_buffer ctx3buf 2 [0, 2] (by decide) (by decide) (by decide)⟩

/-- C3: once a pull call returns done = true, every subsequent pull call
on that cursor returns done = true together with an all-zero block of
frame_count samples, for every later sequence of expected positions that
is non-decreasing from the one observed at the done call (the wall clock
does not run backwards). -/
theorem done_is_absorbing (ctx : CallbackCtx) (fc p e0 : ℕ) (es : List ℕ)
    (hchain : chainLe e0 es = true)
    (hdone : (callback ctx p e0 fc).1.done = true) :
    (runPulls ctx (callback ctx p e0 fc).2 fc es).1 =
      List.replicate es.length ⟨List.replicate fc 0, true⟩ :=
  runPulls_inv ctx fc es _ e0 (callback_done_inv ctx p e0 fc hdone) hchain

/-- Witness for done_is_absorbing: buffer [1, 2, 3], a terminal call at
position 3 with expected_position 3, then two further pulls. -/
theorem done_is_absorbing_witness :
    (chainLe 3 [3, 4] = true ∧ (callback ctx3buf 3 3 1).1.done = true) ∧
    (runPulls ctx3buf (callback ctx3buf 3 3 1).2 1 [3, 4]).1 =
      List.replicate 2 ⟨List.replicate 1 0, true⟩ :=
  ⟨⟨by decide, by decide⟩,
    done_is_absorbing ctx3buf 1 3 3 [3, 4] (by decide) (by decide)⟩

/-- C4 counterexample: at buffer length 10, position 0,
expected_position 0 (no drift) and frame_count 1024, the call advances
position to 1024, which lies outside [0, len(samples)] = [0, 10],
contradicting the claimed invariant. -/
theorem position_bound_counterexample :
    (callback ctx10 0 0 1024).2 = 1024 ∧
    ¬ ((callback ctx10 0 0 1024).2 ≤ ctx10.channel_data.length) := by
  refine ⟨by decide, by decide⟩

/-- C4 (amended): across pull invocations, position is monotonically
non-decreasing except at drift-correction jumps, and is always
non-negative; but it is not confined to [0, len(samples)]: after an
invocation in which no jump fires it is only bounded by
max(previous position, len(samples) + frame_count - 1), and a jump can
move it to any expected_position. -/
theorem position_monotone_bound (ctx : CallbackCtx) (p e fc : ℕ)
    (hnosnap : ((((e : ℕ)) : ℤ) - ((p : ℕ) : ℤ)).natAbs ≤ ctx.buffer_size * 2) :
    p ≤ (callback ctx p e fc).2 ∧
      (callback ctx p e fc).2 ≤ max p (ctx.channel_data.length + fc - 1) := by
  rw [callback_snd, if_neg (by omega)]
  by_cases hp : ctx.channel_data.length ≤ p
  · rw [if_pos hp]
    exact ⟨le_refl _, le_max_left ..⟩
  · rw [if_neg hp]
    refine ⟨Nat.le_add_right .., le_trans ?_ (le_max_right ..)⟩
    omega

/-- Witness for position_monotone_bound: buffer [1, 2, 3], position 1,
expected_position 1, frame_count 2. -/
theorem position_monotone_bound_witness :
    (((((1 : ℕ)) : ℤ) - (((1 : ℕ)) : ℤ)).natAbs ≤ ctx3buf.buffer_size * 2) ∧
    (1 ≤ (callback ctx3buf 1 1 2).2 ∧
      (callback ctx3buf 1 1 2).2 ≤ max 1 (ctx3buf.channel_data.length + 2 - 1)) :=
  ⟨by decide, position_monotone_bound ctx3buf 1 1 2 (by decide)⟩

/-- C5: for a buffer of length L pulled with a frame_count > 0 that does
not divide L, in a pull sequence in which no drift correction fires and
that runs past the last real samples, the final non-terminal block (the
one at index L / frame_count) is returned with done = false, has length
exactly frame_count, its first L mod frame_count entries equal the
remaining real samples of the buffer, and all remaining entries are
zero. -/
theorem padding_law (ctx : CallbackCtx) (fc : ℕ) (es : List ℕ)
    (hfc : 0 < fc)
    (hndvd : ¬ (fc ∣ ctx.channel_data.length))
    (hnf : noFireB ctx fc 0 es = true)
    (hlen : ctx.channel_data.length / fc < es.length) :
    ((runPulls ctx 0 fc es).1.getD (ctx.channel_data.length / fc) ⟨[], true⟩).done
        = false ∧
    ((runPulls ctx 0 fc es).1.getD (ctx.channel_data.length / fc) ⟨[], true⟩).block.length
        = fc ∧
    ((runPulls ctx 0 fc es).1.getD (ctx.channel_data.length / fc) ⟨[], true⟩).block.take
        (ctx.channel_data.length % fc)
        = ctx.channel_data.drop (ctx.channel_data.length / fc * fc) ∧
    ((runPulls ctx 0 fc es).1.getD (ctx.channel_data.length / fc) ⟨[], true⟩).block.drop
        (ctx.channel_data.length % fc)
        = List.replicate (fc - ctx.channel_data.length % fc) 0 := by
  have hrun := runPulls_noFire ctx fc es 0 hnf
  have hget : (runPulls ctx 0 fc es).1.getD (ctx.channel_data.length / fc) ⟨[], true⟩ =
      blockSpec ctx fc (0 + ctx.channel_data.length / fc * fc) := by
    rw [hrun, List.getD_eq_getElem?_getD, List.getElem?_map, List.getElem?_range hlen]
    rfl
  rw [hget]
  have hqr := Nat.div_add_mod ctx.channel_data.length fc
  have hcomm : ctx.channel_data.length / fc * fc = fc * (ctx.channel_data.length / fc) :=
    Nat.mul_comm ..
  have hrpos : 0 < ctx.channel_data.length % fc :=
    Nat.pos_of_ne_zero (fun h0 => hndvd (Nat.dvd_of_mod_eq_zero h0))
  have hrlt : ctx.channel_data.length % fc < fc := Nat.mod_lt _ hfc
  have hqL : 0 + ctx.channel_data.length / fc * fc < ctx.channel_data.length := by omega
  have hdlen : (ctx.channel_data.drop (ctx.channel_data.length / fc * fc)).length =
      ctx.channel_data.length % fc := by
    rw [List.length_drop]
    omega
  have hblock : (blockSpec ctx fc (0 + ctx.channel_data.length / fc * fc)).block =
      ctx.channel_data.drop (ctx.channel_data.length / fc * fc) ++
        List.replicate (fc - ctx.channel_data.length % fc) 0 := by
    simp only [blockSpec, Nat.zero_add]
    rw [List.take_append_eq_append_take,
      List.take_of_length_le (le_of_eq_of_le hdlen (le_of_lt hrlt)),
      List.take_replicate]
    congr 2
    rw [hdlen]
    omega
  refine ⟨?_, ?_, ?_, ?_⟩
  · simp only [blockSpec, Nat.zero_add, decide_eq_false_iff_not, not_le]
    omega
  · rw [hblock, List.length_append, List.length_replicate, hdlen]
    omega
  · rw [hblock, ← hdlen, List.take_left]
  · rw [hblock, ← hdlen, List.drop_left]

/-- Witness for padding_law: buffer [1, 2, 3], frame_count 2 (which does
not divide 3), two pulls with no drift. -/
theorem padding_law_witness :
    ((0 : ℕ) < 2 ∧ ¬ ((2 : ℕ) ∣ ctx3buf.channel_data.length) ∧
      noFireB ctx3buf 2 0 [0, 0] = true ∧
      ctx3buf.channel_data.length / 2 < ([0, 0] : List ℕ).length) ∧
    (((runPulls ctx3buf 0 2 [0, 0]).1.getD (ctx3buf.channel_data.length / 2)
        ⟨[], true⟩).done = false ∧
    ((runPulls ctx3buf 0 2 [0, 0]).1.getD (ctx3buf.channel_data.length / 2)
        ⟨[], true⟩).block.length = 2 ∧
    ((runPulls ctx3buf 0 2 [0, 0]).1.getD (ctx3buf.channel_data.length / 2)
        ⟨[], true⟩).block.take (ctx3buf.channel_data.length % 2)
        = ctx3buf.channel_data.drop (ctx3buf.channel_data.length / 2 * 2) ∧
    ((runPulls ctx3buf 0 2 [0, 0]).1.getD (ctx3buf.channel_data.length / 2)
        ⟨[], true⟩).block.drop (ctx3buf.channel_data.length % 2)
        = List.replicate (2 - ctx3buf.channel_data.length % 2) 0) :=
  ⟨⟨by decide, by decide, by decide, by decide⟩,
    padding_law ctx3buf 2 [0, 0] (by decide) (by decide) (by decide) (by decide)⟩

/-- C6 counterexample: in the end-to-end ramp scenario (8000 samples,
blocks of 1024, wall clock exactly in step with emitted samples), the
8th pull (index 7) returns done = false (it carries the final padded
block of real samples), so the cursor does not reach done = true after
exactly 8 pulls as the claim states. -/
theorem eight_pulls_counterexample :
    ((runPulls rampCtx 0 1024 c6Expecteds).1.getD 7 ⟨[], true⟩).done = false := by
  rw [ramp_run_outs, List.getD_eq_getElem?_getD, List.getElem?_map,
    List.getElem?_range (by norm_num)]
  simp only [Option.map_some', Option.getD_some, blockSpec]
  rw [rampCtx_len]
  decide

/-- C6 (amended): in the end-to-end ramp scenario (two channels of 8000
samples at 8000 Hz, pulled in blocks of 1024 with the simulated wall
clock advancing exactly in step with samples emitted), no hard resync
ever fires, the first eight pulls return done = false (the 8th carries
the final padded block, ceil(8000/1024) = 8 blocks of data in all), and
the cursor first returns done = true on the 9th pull. -/
theorem ramp_scenario_nine_pulls :
    noFireB rampCtx 1024 0 c6Expecteds = true ∧
    (runPulls rampCtx 0 1024 c6Expecteds).1.map PullOutput.done =
      [false, false, false, false, false, false, false, false, true] := by
  refine ⟨ramp_noFire, ?_⟩
  rw [ramp_run_outs, List.map_map]
  have hd : (PullOutput.done ∘ fun k => blockSpec rampCtx 1024 (k * 1024)) =
      fun k => decide (8000 ≤ k * 1024) := by
    funext k
    simp only [Function.comp_apply, blockSpec]
    rw [rampCtx_len]
  rw [hd]
  decide

/-- C7 (code bug): every construction runs the channel-offset logic with
sync_offset_ms = 0, because AudioManager.__init__ hardcodes the field to
0 before using it and main reconstructs the manager without passing the
CLI offset; at offset 5 ms and 1000 Hz the loaded channels are unchanged
([1], [1]), while the offset logic the source carries (and the claim
describes) would have produced 5 prepended zero samples on the left and
5 padded zeros on the right. -/
theorem sync_offset_ignored :
    main_load_channels [1] [1] 5 1000 = ([1], [1]) ∧
    init_channels [1] [1] 5 1000 =
      (List.replicate 5 0 ++ [1], [1] ++ List.replicate 5 0) := by
  refine ⟨by decide, by decide⟩

/-- C8: when the first sink connects and the second sink fails
connect(), whatever the audio-device lookups would have returned, the
first sink receives a disconnect() call and the session ends without
reaching Playing: neither stream is started. -/
theorem second_sink_failure_aborts (l1 l2 : Bool) :
    (main_session true false l1 l2).2 = false ∧
    SinkCall.disconnect1 ∈ (main_session true false l1 l2).1 ∧
    SinkCall.start_stream1 ∉ (main_session true false l1 l2).1 ∧
    SinkCall.start_stream2 ∉ (main_session true false l1 l2).1 := by
  cases l1 <;> cases l2 <;> refine ⟨by decide, by decide, by decide, by decide⟩

/-- C9 counterexample: the full-scale negative-max 16-bit sample -32768
normalizes to exactly -1, which does not exceed the range [-1.0, 1.0];
the claim that such inputs may exceed the range is false. -/
theorem normalize_fullscale_counterexample :
    normalize_sample (-32768) 2 = -1 ∧ ¬ (normalize_sample (-32768) 2 < -1) := by
  constructor
  · rw [normalize_sample]
    norm_num
  · rw [normalize_sample]
    norm_num

/-- C9 (amended): normalization converts each integer PCM sample to
floating point by dividing by 2 ^ (bit_depth - 1) (bit_depth = 8 *
sample_width), and for every representable sample, the full-scale
negative maximum included, the result lies in [-1.0, 1.0]; the
full-scale negative value maps to exactly -1.0 and never exceeds the
range. -/
theorem normalize_in_range (s : ℤ) (w : ℕ) (_hw : 1 ≤ w)
    (hlo : -(2 ^ (8 * w - 1)) ≤ s) (hhi : s < 2 ^ (8 * w - 1)) :
    -1 ≤ normalize_sample s w ∧ normalize_sample s w ≤ 1 := by
  have hD : (0 : ℚ) < 2 ^ (8 * w - 1) := by positivity
  rw [normalize_sample]
  constructor
  · rw [le_div_iff hD]
    have hc : ((-(2 ^ (8 * w - 1)) : ℤ) : ℚ) ≤ (s : ℚ) := by exact_mod_cast hlo
    push_cast at hc
    linarith
  · rw [div_le_one hD]
    have hc : (s : ℚ) < ((2 ^ (8 * w - 1) : ℤ) : ℚ) := by exact_mod_cast hhi
    push_cast at hc
    linarith

/-- Witness for normalize_in_range: 16-bit samples (sample_width 2) at
the full-scale negative maximum -32768. -/
theorem normalize_in_range_witness :
    ((1 : ℕ) ≤ 2 ∧ -(2 ^ (8 * 2 - 1)) ≤ (-32768 : ℤ) ∧
      (-32768 : ℤ) < 2 ^ (8 * 2 - 1)) ∧
    (-1 ≤ normalize_sample (-32768) 2 ∧ normalize_sample (-32768) 2 ≤ 1) :=
  ⟨⟨by decide, by decide, by decide⟩,
    normalize_in_range (-32768) 2 (by decide) (by decide) (by decide)⟩

/-- C10: for every non-empty selection of stems of equal length whose
samples all lie in [-1.0, 1.0], every sample of the combined channel
returned by combine_stems lies in [-1.0, 1.0]: when the summed signal
has maximum absolute value above 1.0 it is rescaled by that maximum
before being returned. -/
theorem combine_stems_in_range (stems : List (List ℚ))
    (hne : stems ≠ [])
    (hlen : ∀ s ∈ stems, ∀ t ∈ stems, s.length = t.length)
    (hbound : ∀ s ∈ stems, ∀ x ∈ s, -1 ≤ x ∧ x ≤ 1) :
    ∀ y ∈ combine_stems stems, -1 ≤ y ∧ y ≤ 1 := by
  intro y hy
  cases stems with
  | nil => exact absurd rfl hne
  | cons first rest =>
    rw [combine_stems] at hy
    exact abs_le.mp (normalize_combined_mem _ y hy)

/-- Witness for combine_stems_in_range: two stems [1, -1] and [1, 0]. -/
theorem combine_stems_in_range_witness :
    (([[1, -1], [1, 0]] : List (List ℚ)) ≠ [] ∧
      (∀ s ∈ ([[1, -1], [1, 0]] : List (List ℚ)),
        ∀ t ∈ ([[1, -1], [1, 0]] : List (List ℚ)), s.length = t.length) ∧
      (∀ s ∈ ([[1, -1], [1, 0]] : List (List ℚ)), ∀ x ∈ s, -1 ≤ x ∧ x ≤ 1)) ∧
    (∀ y ∈ combine_stems [[1, -1], [1, 0]], -1 ≤ y ∧ y ≤ 1) :=
  ⟨⟨by decide, by decide, by decide⟩,
    combine_stems_in_range [[1, -1], [1, 0]] (by decide) (by decide) (by decide)⟩

end MultiBlue
